/-
Verification of the DMDFPWM encoder core (dmdfpwm_encoder.py).

Shallow embedding conventions:
* Python `bytes` values are `List Nat` (each entry one byte).
* Python `int` is `Int` (arbitrary precision, as in Python).
* Python `//` (floor division) is `Int.fdiv`; a division whose divisor may
  be zero (where Python raises ZeroDivisionError) is wrapped in `Option`.
* `int(x / y)` on Python floats, for the magnitudes appearing in the
  encoder (|numerator| < 2^53 and the divisor a power of two, so the float
  quotient is exact), is truncation toward zero, i.e. `Int.tdiv`.
* Functions that can raise return `Option` (`none` = the exception).
-/
import Mathlib

namespace DMDFPWM

/-! ## Delta modulator (`_pcm_to_dfpwm`, lines 346-390) -/

/-- `scaled_sample = int((sample * 32767) / 32768)` (line 369).
For 16-bit samples the float quotient is exact (numerator below 2^53,
divisor a power of two), and Python `int()` truncates toward zero,
which is `Int.tdiv`. -/
def scale_sample (sample : Int) : Int :=
  Int.tdiv (sample * 32767) 32768

/-- `running_average = max(-32767, min(32767, running_average))` (line 388). -/
def clamp_avg (x : Int) : Int :=
  max (-32767) (min 32767 x)

/-- One iteration of the loop at lines 367-388.  State is
`(current_sample, running_average)`; the result also carries the emitted
byte (1 for the high pulse, 0 for the low pulse).  `charge // 16` is
Python floor division, i.e. `Int.fdiv`. -/
def dfpwm_step (cur avg sample : Int) : Int × Int × Nat :=
  let scaled := scale_sample sample
  let target := scaled - avg
  let branch : Int × Int × Nat :=
    if target > cur then (127, cur + 127, 1) else (-127, cur - 127, 0)
  (branch.2.1, clamp_avg (avg + Int.fdiv branch.1 16), branch.2.2)

/-- The loop of `_pcm_to_dfpwm` over the parsed samples, threading the
`current_sample` / `running_average` state (both start at 0, line 364-365). -/
def dfpwm_loop (cur avg : Int) : List Int → List Nat
  | [] => []
  | s :: rest =>
      let r := dfpwm_step cur avg s
      r.2.2 :: dfpwm_loop r.1 r.2.1 rest

/-- `int.from_bytes(pcm_data[i:i+2], byteorder='little', signed=True)`
(line 356) for the two bytes `lo`, `hi`. -/
def to_signed16 (lo hi : Nat) : Int :=
  let v : Int := (lo : Int) + 256 * (hi : Int)
  if v < 32768 then v else v - 65536

/-- The sample-parsing loop at lines 352-357: consecutive little-endian
byte pairs become signed 16-bit samples; a trailing odd byte is dropped
(the `i + 1 < len(pcm_data)` guard). -/
def parse_samples : List Nat → List Int
  | b0 :: b1 :: rest => to_signed16 b0 b1 :: parse_samples rest
  | _ => []

/-- `_pcm_to_dfpwm` (lines 346-390): early return `b''` on empty input,
otherwise run the delta-modulation loop over the parsed samples. -/
def pcm_to_dfpwm (pcm : List Nat) : List Nat :=
  if pcm = [] then [] else dfpwm_loop 0 0 (parse_samples pcm)

lemma dfpwm_step_bit (cur avg sample : Int) :
    (dfpwm_step cur avg sample).2.2 = 0 ∨ (dfpwm_step cur avg sample).2.2 = 1 := by
  by_cases h : scale_sample sample - avg > cur <;> simp [dfpwm_step, h]

lemma dfpwm_loop_length :
    ∀ (samples : List Int) (cur avg : Int),
      (dfpwm_loop cur avg samples).length = samples.length := by
  intro samples
  induction samples with
  | nil => intro cur avg; rfl
  | cons s rest ih => intro cur avg; simp [dfpwm_loop, ih]

lemma dfpwm_loop_bits :
    ∀ (samples : List Int) (cur avg : Int) (b : Nat),
      b ∈ dfpwm_loop cur avg samples → b = 0 ∨ b = 1 := by
  intro samples
  induction samples with
  | nil => intro cur avg b hb; simp [dfpwm_loop] at hb
  | cons s rest ih =>
      intro cur avg b hb
      simp only [dfpwm_loop, List.mem_cons] at hb
      rcases hb with hb | hb
      · subst hb; exact dfpwm_step_bit cur avg s
      · exact ih _ _ b hb

/-- C2: the delta modulator emits exactly one byte per input sample, every
emitted byte is 0 or 1, and the empty input yields the empty output (the
function is total, so it never fails on well-formed integer input). -/
theorem C2_delta_modulator_shape :
    (∀ (cur avg : Int) (samples : List Int),
        (dfpwm_loop cur avg samples).length = samples.length ∧
        ∀ b ∈ dfpwm_loop cur avg samples, b = 0 ∨ b = 1) ∧
    (∀ pcm : List Nat, (pcm_to_dfpwm pcm).length = (parse_samples pcm).length) ∧
    pcm_to_dfpwm [] = [] := by
  refine ⟨fun cur avg samples => ⟨dfpwm_loop_length samples cur avg,
      fun b hb => dfpwm_loop_bits samples cur avg b hb⟩, fun pcm => ?_, rfl⟩
  by_cases h : pcm = []
  · subst h; rfl
  · simp [pcm_to_dfpwm, h, dfpwm_loop_length]

theorem C2_delta_modulator_shape_witness :
    (dfpwm_loop 0 0 [100, -200]).length = ([100, -200] : List Int).length ∧
    ((1 : Nat) = 0 ∨ (1 : Nat) = 1) :=
  ⟨(C2_delta_modulator_shape.1 0 0 [100, -200]).1,
   (C2_delta_modulator_shape.1 0 0 [100, -200]).2 1 (by decide)⟩

/-- C4 counterexample: with state `(0, 0)` and sample `0` the emitted bit is
0 (charge −127), and the code's floor division `charge // 16` yields a new
running average of −8, whereas truncating division (`Int.tdiv`, as the claim
states) would give −7. -/
theorem C4_counterexample :
    (dfpwm_step 0 0 0).2.1 = -8 ∧ Int.tdiv (-127) 16 = -7 ∧
    ((-8 : Int) ≠ 0 + Int.tdiv (-127) 16) := by decide

/-- C4 (amended): the running average is updated with `charge // 16` using
Python floor division (`Int.fdiv`, rounding toward negative infinity), so
for charge −127 the increment is −8 (and +7 for charge +127); the result is
then clamped to [−32767, 32767]. -/
theorem C4_running_average_update (cur avg sample : Int) :
    (dfpwm_step cur avg sample).2.1 =
      max (-32767) (min 32767
        (avg + Int.fdiv (if scale_sample sample - avg > cur then 127 else -127) 16)) ∧
    Int.fdiv (-127) 16 = -8 ∧ Int.fdiv 127 16 = 7 := by
  refine ⟨?_, by decide, by decide⟩
  by_cases h : scale_sample sample - avg > cur <;> simp [dfpwm_step, clamp_avg, h]

/-- C5 counterexample: the code scales with `int((sample*32767)/32768)`,
which truncates toward zero: sample −1 scales to 0, while the claimed floor
would give −1. -/
theorem C5_counterexample :
    scale_sample (-1) = 0 ∧ Int.fdiv ((-1) * 32767) 32768 = -1 ∧
    ((0 : Int) ≠ -1) := by decide

/-- C5 (amended): for every 16-bit input sample, the scaled working value is
the truncation toward zero of `sample * 32767 / 32768` (`Int.tdiv`), so
sample −1 scales to 0, not −1; and the emitted bit is 1 exactly when
`target = scaled − running_average` exceeds `current_sample`. -/
theorem C5_scaling_truncates (cur avg sample : Int)
    (h1 : -32768 ≤ sample) (h2 : sample ≤ 32767) :
    ((dfpwm_step cur avg sample).2.2 = 1 ↔ scale_sample sample - avg > cur) ∧
    scale_sample sample = Int.tdiv (sample * 32767) 32768 ∧
    scale_sample (-1) = 0 ∧ scale_sample (-32768) = -32767 ∧
    scale_sample 32767 = 32766 := by
  refine ⟨?_, rfl, by decide, by decide, by decide⟩
  by_cases h : scale_sample sample - avg > cur <;> simp [dfpwm_step, h]

theorem C5_scaling_truncates_witness :
    (-32768 : Int) ≤ -1 ∧ (-1 : Int) ≤ 32767 ∧
    (((dfpwm_step 0 0 (-1)).2.2 = 1 ↔ scale_sample (-1) - 0 > 0) ∧
     scale_sample (-1) = Int.tdiv ((-1) * 32767) 32768 ∧
     scale_sample (-1) = 0 ∧ scale_sample (-32768) = -32767 ∧
     scale_sample 32767 = 32766) :=
  ⟨by decide, by decide, C5_scaling_truncates 0 0 (-1) (by decide) (by decide)⟩

/-! ## Channel interleaver (`interleave_audio`, lines 392-415, and
`interleave_audio_chunks`, lines 417-440) -/

/-- Python `//` on ints: floor division, raising ZeroDivisionError (here
`none`) when the divisor is zero. -/
def pyFloorDiv (a b : Int) : Option Int :=
  if b = 0 then none else some (Int.fdiv a b)

/-- The body of the inner loop (lines 404-413): take
`data[start : min(start+chunk_size, len(data))]` and pad with `0x55` up to
`chunk_size` when the slice came up short. -/
def channelChunk (data : List Nat) (start k : Nat) : List Nat :=
  let chunk := (data.drop start).take k
  chunk ++ List.replicate (k - chunk.length) 0x55

/-- `max(len(data) for data in channel_data)` (line 398); only used on a
non-empty list, where the fold below is that maximum. -/
def maxLen (channel_data : List (List Nat)) : Nat :=
  channel_data.foldr (fun d m => max d.length m) 0

/-- `interleave_audio` (lines 392-415).  Empty channel list returns `b''`
before any division; `num_chunks = (max_length + chunk_size - 1) //
chunk_size` raises on `chunk_size = 0` (`none`); then chunk-major,
channel-minor concatenation of padded chunks.  For `chunk_size < 0` the
loop emits only empty slices (Python's negative slice ends), matching
`chunk_size.toNat = 0` here. -/
def interleave_audio (channel_data : List (List Nat)) (chunk_size : Int) :
    Option (List Nat) :=
  if channel_data = [] then some []
  else
    match pyFloorDiv ((maxLen channel_data : Int) + chunk_size - 1) chunk_size with
    | none => none
    | some num_chunks =>
        some (((List.range num_chunks.toNat).map (fun chunk_idx =>
          (channel_data.map (fun data =>
            channelChunk data (chunk_idx * chunk_size.toNat) chunk_size.toNat)).flatten)).flatten)

/-- `interleave_audio_chunks` (lines 417-440): a verbatim duplicate of
`interleave_audio` in the source, embedded separately to mirror that
duplication. -/
def interleave_audio_chunks (channel_data : List (List Nat)) (chunk_size : Int) :
    Option (List Nat) :=
  if channel_data = [] then some []
  else
    match pyFloorDiv ((maxLen channel_data : Int) + chunk_size - 1) chunk_size with
    | none => none
    | some num_chunks =>
        some (((List.range num_chunks.toNat).map (fun chunk_idx =>
          (channel_data.map (fun data =>
            channelChunk data (chunk_idx * chunk_size.toNat) chunk_size.toNat)).flatten)).flatten)

/-- `num_chunks` for a positive chunk size, as a natural number:
`ceil(max_length / chunk_size)`. -/
def numChunks (channel_data : List (List Nat)) (k : Nat) : Nat :=
  (maxLen channel_data + k - 1) / k

lemma channelChunk_zero (data : List Nat) (start : Nat) :
    channelChunk data start 0 = [] := by
  simp [channelChunk]

/-- C6 counterexample: for `chunk_size = -1 ≤ 0` and a non-empty channel
list, `interleave_audio` does not fail at all — it silently returns the
empty byte string. -/
theorem C6_counterexample :
    ((-1 : Int) ≤ 0) ∧ interleave_audio [[1]] (-1) = some [] := by decide

/-- C6 (amended): `interleave_audio` performs no chunk-size validation:
with a non-empty channel list, `chunk_size = 0` hits an unhandled
ZeroDivisionError (`none`) rather than a surfaced configuration error, and
`chunk_size < 0` silently yields an empty result; an empty channel list
yields an empty result for every chunk size. -/
theorem C6_no_chunk_size_validation (channel_data : List (List Nat)) (cs : Int) :
    (channel_data ≠ [] → interleave_audio channel_data 0 = none) ∧
    (cs < 0 → interleave_audio channel_data cs = some []) ∧
    interleave_audio [] cs = some [] := by
  refine ⟨fun hne => ?_, fun hneg => ?_, by simp [interleave_audio]⟩
  · simp [interleave_audio, hne, pyFloorDiv]
  · by_cases hne : channel_data = []
    · simp [interleave_audio, hne]
    · have hcs0 : cs ≠ 0 := hneg.ne
      have htn : cs.toNat = 0 := Int.toNat_of_nonpos hneg.le
      simp [interleave_audio, hne, pyFloorDiv, hcs0, htn, channelChunk_zero]

theorem C6_no_chunk_size_validation_witness :
    ([[1]] : List (List Nat)) ≠ [] ∧ interleave_audio [[1]] 0 = none ∧
    ((-2 : Int) < 0) ∧ interleave_audio [[1]] (-2) = some [] ∧
    interleave_audio [] (-2) = some [] :=
  ⟨by decide, (C6_no_chunk_size_validation [[1]] (-2)).1 (by decide), by decide,
   (C6_no_chunk_size_validation [[1]] (-2)).2.1 (by decide),
   (C6_no_chunk_size_validation [[1]] (-2)).2.2⟩

/-- C10: `interleave_audio` and `interleave_audio_chunks` are extensionally
equal — the two source functions are verbatim duplicates. -/
theorem C10_interleave_duplicates_agree
    (channel_data : List (List Nat)) (chunk_size : Int) :
    interleave_audio channel_data chunk_size =
      interleave_audio_chunks channel_data chunk_size := rfl

/-! ## Container codec (`build_header` lines 252-260, `write_dmdfpwm`
lines 442-458, payload-length computation in `run_interactive`
lines 547-557) -/

/-- `struct.pack('<H', v)`: two little-endian bytes. -/
def le16 (v : Nat) : List Nat := [v % 256, v / 256 % 256]

/-- `struct.pack('<I', v)`: four little-endian bytes. -/
def le32 (v : Nat) : List Nat :=
  [v % 256, v / 256 % 256, v / 65536 % 256, v / 16777216 % 256]

/-- The magic tag `b"DMDFPWM"` (line 28). -/
def magicTag : List Nat := [0x44, 0x4D, 0x44, 0x46, 0x50, 0x57, 0x4D]

/-- `build_header` (lines 252-260): magic, version byte 0x01, payload
length as `<I`, channel count as `<H`, chunk size as `<H`.  `struct.pack`
raises (`none`) when a value does not fit its width. -/
def build_header (channel_count chunk_size payload_length : Nat) :
    Option (List Nat) :=
  if channel_count < 65536 ∧ chunk_size < 65536 ∧ payload_length < 4294967296 then
    some (magicTag ++ [0x01] ++ le32 payload_length ++
      le16 channel_count ++ le16 chunk_size)
  else none

/-- `write_dmdfpwm` (lines 442-458): after the caller-supplied header, the
artist, title and album byte strings are each written null-terminated, then
the audio payload.  The strings are taken post-UTF-8-encoding. -/
def write_dmdfpwm (header artist title album audio : List Nat) : List Nat :=
  header ++ (artist ++ [0]) ++ (title ++ [0]) ++ (album ++ [0]) ++ audio

/-- The payload-length computation of `run_interactive` (lines 547-551):
`len(artist+NUL) + len(title+NUL) + len(album+NUL) + len(interleaved)`. -/
def payload_length_calc (artist title album audio : List Nat) : Nat :=
  (artist.length + 1) + (title.length + 1) + (album.length + 1) + audio.length

/-- The encode tail of `run_interactive` (lines 547-557): build the header
from the computed payload length, then write the file. -/
def encode_file (channel_count chunk_size : Nat)
    (artist title album audio : List Nat) : Option (List Nat) :=
  match build_header channel_count chunk_size
      (payload_length_calc artist title album audio) with
  | none => none
  | some h => some (write_dmdfpwm h artist title album audio)

/-- A channel descriptor as validated by `parse_channel_config`
(lines 235-250): a required name, an optional explicit index and an
optional filter string. -/
structure ChannelDesc where
  name : List Nat
  index : Option Nat
  filter : Option (List Nat)
deriving DecidableEq

/-- Container serialization as a function of the descriptor list
(`run_interactive` lines 551-557): only `len(channels)` reaches the
header; `write_dmdfpwm` receives no descriptor data at all. -/
def serialize_container (channels : List ChannelDesc) (chunk_size : Nat)
    (artist title album audio : List Nat) : Option (List Nat) :=
  encode_file channels.length chunk_size artist title album audio

/-- Decode four little-endian bytes. -/
def le32_value (b : List Nat) : Nat :=
  b.getD 0 0 + 256 * b.getD 1 0 + 65536 * b.getD 2 0 + 16777216 * b.getD 3 0

/-- Decode two little-endian bytes. -/
def le16_value (b : List Nat) : Nat :=
  b.getD 0 0 + 256 * b.getD 1 0

/-- C9: for in-range field values `build_header` returns exactly 16 bytes:
the 7-byte magic tag, a version byte equal to 1, then payload_length as
unsigned 32-bit little-endian, channel_count and chunk_size each as
unsigned 16-bit little-endian. -/
theorem C9_header_layout (cc cs pl : Nat)
    (hcc : cc < 65536) (hcs : cs < 65536) (hpl : pl < 4294967296) :
    ∃ h, build_header cc cs pl = some h ∧ h.length = 16 ∧
      h.take 7 = magicTag ∧ h.getD 7 0 = 1 ∧
      le32_value ((h.drop 8).take 4) = pl ∧
      le16_value ((h.drop 12).take 2) = cc ∧
      le16_value ((h.drop 14).take 2) = cs := by
  refine ⟨magicTag ++ [0x01] ++ le32 pl ++ le16 cc ++ le16 cs,
    by simp [build_header, hcc, hcs, hpl], ?_, ?_, ?_, ?_, ?_⟩ <;>
    simp [magicTag, le32, le16, le32_value, le16_value] <;> omega

theorem C9_header_layout_witness :
    (2 : Nat) < 65536 ∧ (6000 : Nat) < 65536 ∧ (300 : Nat) < 4294967296 ∧
    ∃ h, build_header 2 6000 300 = some h ∧ h.length = 16 ∧
      h.take 7 = magicTag ∧ h.getD 7 0 = 1 ∧
      le32_value ((h.drop 8).take 4) = 300 ∧
      le16_value ((h.drop 12).take 2) = 2 ∧
      le16_value ((h.drop 14).take 2) = 6000 :=
  ⟨by decide, by decide, by decide,
   C9_header_layout 2 6000 300 (by decide) (by decide) (by decide)⟩

/-- C3: in every container the encoder writes, the 32-bit payload_length
field at header offsets 8..11 equals the exact number of bytes written
after the 16-byte header (the three null-terminated metadata strings plus
the interleaved payload). -/
theorem C3_payload_length_invariant (cc cs : Nat) (artist title album audio : List Nat)
    (hcc : cc < 65536) (hcs : cs < 65536)
    (hpl : payload_length_calc artist title album audio < 4294967296) :
    ∃ out, encode_file cc cs artist title album audio = some out ∧
      le32_value ((out.drop 8).take 4) = (out.drop 16).length := by
  refine ⟨write_dmdfpwm
      (magicTag ++ [0x01] ++ le32 (payload_length_calc artist title album audio) ++
        le16 cc ++ le16 cs) artist title album audio, ?_, ?_⟩
  · simp [encode_file, build_header, hcc, hcs, hpl]
  · simp [write_dmdfpwm, magicTag, le32, le16, le32_value,
      payload_length_calc] at hpl ⊢
    omega

theorem C3_payload_length_invariant_witness :
    (1 : Nat) < 65536 ∧ (2 : Nat) < 65536 ∧
    payload_length_calc [65] [] [] [7, 8] < 4294967296 ∧
    ∃ out, encode_file 1 2 [65] [] [] [7, 8] = some out ∧
      le32_value ((out.drop 8).take 4) = (out.drop 16).length :=
  ⟨by decide, by decide, by decide,
   C3_payload_length_invariant 1 2 [65] [] [] [7, 8] (by decide) (by decide) (by decide)⟩

/-- C7 counterexample: with artist `"AB"`, empty title, album and payload,
the bytes written after the header are `[65, 66, 0, 0, 0]`; they do not
begin with a one-byte length prefix of any metadata blob (the first byte,
65, would have to be the length of a blob that the remaining 4 bytes
cannot contain). -/
theorem C7_counterexample :
    ¬ ∃ blob rest : List Nat,
        write_dmdfpwm [] [65, 66] [] [] [] = blob.length :: (blob ++ rest) := by
  rintro ⟨blob, rest, h⟩
  have hlen := congrArg List.length h
  have hhead := congrArg (fun l => l.getD 0 0) h
  simp [write_dmdfpwm] at hlen hhead
  omega

/-- C7 (amended): `write_dmdfpwm` writes artist, title and album as
null-terminated strings with no length prefix and no size check: even when
the metadata exceeds 255 bytes it is written in full (the artist bytes
appear verbatim right after the header) and serialization never fails. -/
theorem C7_no_metadata_prefix_or_limit (hdr artist title album audio : List Nat)
    (ha : 255 < artist.length) :
    (write_dmdfpwm hdr artist title album audio).length =
      hdr.length + payload_length_calc artist title album audio ∧
    ((write_dmdfpwm hdr artist title album audio).drop hdr.length).take
      artist.length = artist := by
  constructor
  · simp [write_dmdfpwm, payload_length_calc]; omega
  · simp only [write_dmdfpwm, List.append_assoc]
    rw [List.drop_left, List.take_left]

theorem C7_no_metadata_prefix_or_limit_witness :
    255 < (List.replicate 300 65).length ∧
    ((write_dmdfpwm [] (List.replicate 300 65) [] [] []).length =
        ([] : List Nat).length +
          payload_length_calc (List.replicate 300 65) [] [] [] ∧
     ((write_dmdfpwm [] (List.replicate 300 65) [] [] []).drop
        ([] : List Nat).length).take (List.replicate 300 65).length =
       List.replicate 300 65) :=
  ⟨by rw [List.length_replicate]; omega,
   C7_no_metadata_prefix_or_limit [] (List.replicate 300 65) [] [] []
     (by rw [List.length_replicate]; omega)⟩

/-- C8 counterexample: two different one-descriptor lists (names `"FL"`
and `"FR"`) serialize to byte-identical containers, so the container
cannot contain any encoding of the descriptor list, let alone a
length-prefixed, truncation-protected one. -/
theorem C8_counterexample :
    serialize_container [⟨[70, 76], some 0, none⟩] 2 [] [] [] [1] =
      serialize_container [⟨[70, 82], some 0, none⟩] 2 [] [] [] [1] ∧
    ([⟨[70, 76], some 0, none⟩] : List ChannelDesc) ≠
      [⟨[70, 82], some 0, none⟩] := ⟨rfl, by decide⟩

/-- C8 (amended): the serialized container contains no channel-descriptor
section at all; the descriptor list influences only the header's
channel_count field, so any two descriptor lists of equal length produce
identical bytes, and no truncation policy exists. -/
theorem C8_no_descriptor_blob (ds1 ds2 : List ChannelDesc) (cs : Nat)
    (artist title album audio : List Nat) (h : ds1.length = ds2.length) :
    serialize_container ds1 cs artist title album audio =
      serialize_container ds2 cs artist title album audio := by
  unfold serialize_container
  rw [h]

theorem C8_no_descriptor_blob_witness :
    ([⟨[66, 76], none, none⟩] : List ChannelDesc).length =
      ([⟨[66, 82], none, none⟩] : List ChannelDesc).length ∧
    serialize_container [⟨[66, 76], none, none⟩] 3 [] [] [] [] =
      serialize_container [⟨[66, 82], none, none⟩] 3 [] [] [] [] :=
  ⟨rfl, C8_no_descriptor_blob [⟨[66, 76], none, none⟩]
    [⟨[66, 82], none, none⟩] 3 [] [] [] [] rfl⟩

/-! ## C1: the fixed-stride layout of `interleave_audio` -/

lemma channelChunk_length (d : List Nat) (s k : Nat) :
    (channelChunk d s k).length = k := by
  simp [channelChunk]

lemma channelChunk_getElem? (d : List Nat) (s k j : Nat) (hj : j < k) :
    (channelChunk d s k)[j]? = some (d.getD (s + j) 0x55) := by
  simp only [channelChunk]
  have hlen : ((d.drop s).take k).length = min k (d.length - s) := by
    simp [List.length_take, List.length_drop]
  by_cases h : j < ((d.drop s).take k).length
  · rw [List.getElem?_append_left h]
    rw [List.getElem?_take_of_lt hj, List.getElem?_drop]
    have hb : s + j < d.length := by rw [hlen] at h; omega
    rw [List.getElem?_eq_getElem hb]
    rw [List.getD_eq_getElem?_getD, List.getElem?_eq_getElem hb]
    rfl
  · rw [List.getElem?_append_right (Nat.le_of_not_lt h)]
    rw [List.getElem?_replicate]
    rw [if_pos (by omega)]
    have hout : d.length ≤ s + j := by rw [hlen] at h; omega
    rw [List.getD_eq_getElem?_getD, List.getElem?_eq_none hout]
    rfl

lemma flatten_length_uniform (k : Nat) :
    ∀ L : List (List Nat), (∀ l ∈ L, l.length = k) →
      L.flatten.length = L.length * k := by
  intro L
  induction L with
  | nil => intro _; simp
  | cons x L ih =>
      intro hall
      have hx : x.length = k := hall x (List.mem_cons_self x L)
      have hrest := ih (fun l hl => hall l (List.mem_cons_of_mem x hl))
      simp only [List.flatten_cons, List.length_append, List.length_cons, hx, hrest]
      ring

lemma flatten_getElem?_uniform (k : Nat) :
    ∀ (L : List (List Nat)), (∀ l ∈ L, l.length = k) →
      ∀ i j, i < L.length → j < k →
        L.flatten[i * k + j]? = (L.getD i [])[j]? := by
  intro L
  induction L with
  | nil => intro _ i j hi _; simp at hi
  | cons x L ih =>
      intro hall i j hi hj
      have hx : x.length = k := hall x (List.mem_cons_self x L)
      cases i with
      | zero =>
          rw [List.flatten_cons, Nat.zero_mul, Nat.zero_add]
          rw [List.getElem?_append_left (by omega)]
          simp
      | succ i =>
          rw [List.flatten_cons]
          have hidx : (i + 1) * k + j = x.length + (i * k + j) := by rw [hx]; ring
          rw [hidx, List.getElem?_append_right (Nat.le_add_right _ _),
            Nat.add_sub_cancel_left]
          have hrec := ih (fun l hl => hall l (List.mem_cons_of_mem x hl)) i j
            (Nat.lt_of_succ_lt_succ hi) hj
          simpa using hrec

/-- For a positive chunk size and a non-empty channel list,
`interleave_audio` succeeds and its `num_chunks` is
`ceil(max_length / chunk_size)`. -/
lemma interleave_pos (channel_data : List (List Nat)) (k : Nat) (hk : 0 < k)
    (hne : channel_data ≠ []) :
    interleave_audio channel_data (k : Int) =
      some (((List.range (numChunks channel_data k)).map (fun c =>
        (channel_data.map (fun d => channelChunk d (c * k) k)).flatten)).flatten) := by
  have hk0 : (k : Int) ≠ 0 := by exact_mod_cast hk.ne'
  have hcast : ((maxLen channel_data : Nat) : Int) + (k : Int) - 1 =
      ((maxLen channel_data + k - 1 : Nat) : Int) := by omega
  have hfd : Int.fdiv ((maxLen channel_data + k - 1 : Nat) : Int) (k : Int) =
      ((numChunks channel_data k : Nat) : Int) := (Int.ofNat_fdiv _ _).symm
  simp only [interleave_audio, pyFloorDiv, if_neg hne, if_neg hk0, hcast, hfd,
    Int.toNat_ofNat]

/-- C1: for every channel list, positive chunk size `k`, chunk index
`c < ceil(max_length/k)` and channel position `i`, the interleaved output
byte at offset `c*k*channel_count + i*k + j` (for `j < k`) is channel `i`'s
byte at position `c*k + j`, or the padding byte 0x55 once past that
channel's length. -/
theorem C1_interleave_layout (channel_data : List (List Nat)) (k : Nat)
    (hk : 0 < k) (c i j : Nat) (hc : c < numChunks channel_data k)
    (hi : i < channel_data.length) (hj : j < k) :
    ∃ out, interleave_audio channel_data (k : Int) = some out ∧
      out[c * k * channel_data.length + i * k + j]? =
        some ((channel_data.getD i []).getD (c * k + j) 0x55) := by
  have hne : channel_data ≠ [] := by
    intro h
    rw [h] at hi
    simp at hi
  refine ⟨_, interleave_pos channel_data k hk hne, ?_⟩
  set n := channel_data.length with hn
  set N := numChunks channel_data k with hN
  set rows := (List.range N).map (fun c =>
    (channel_data.map (fun d => channelChunk d (c * k) k)).flatten) with hrows
  have hinlen : ∀ c' : Nat, ∀ l ∈ channel_data.map
      (fun d => channelChunk d (c' * k) k), l.length = k := by
    intro c' l hl
    obtain ⟨d, _, rfl⟩ := List.mem_map.mp hl
    exact channelChunk_length d _ k
  have hrowlen : ∀ r ∈ rows, r.length = n * k := by
    intro r hr
    rw [hrows] at hr
    obtain ⟨c', _, rfl⟩ := List.mem_map.mp hr
    rw [flatten_length_uniform k _ (hinlen c'), List.length_map]
  have hrowslen : rows.length = N := by simp [hrows]
  have hlt : i * k + j < n * k := by
    have h1 : i * k + j < (i + 1) * k := by
      have : (i + 1) * k = i * k + k := by ring
      omega
    have h2 : (i + 1) * k ≤ n * k := Nat.mul_le_mul (by omega) (Nat.le_refl k)
    omega
  have hcg : c * k * n + i * k + j = c * (n * k) + (i * k + j) := by ring
  rw [hcg, flatten_getElem?_uniform (n * k) rows hrowlen c (i * k + j)
    (by rw [hrowslen]; exact hc) hlt]
  have hrowc : rows.getD c [] =
      (channel_data.map (fun d => channelChunk d (c * k) k)).flatten := by
    simp [hrows, List.getD_eq_getElem?_getD, List.getElem?_range hc]
  rw [hrowc, flatten_getElem?_uniform k _ (hinlen c) i j
    (by rw [List.length_map]; exact hi) hj]
  have hmapD : (channel_data.map (fun d => channelChunk d (c * k) k)).getD i [] =
      channelChunk (channel_data.getD i []) (c * k) k := by
    simp [List.getD_eq_getElem?_getD, List.getElem?_eq_getElem hi]
  rw [hmapD]
  exact channelChunk_getElem? _ _ k j hj

theorem C1_interleave_layout_witness :
    (0 : Nat) < 2 ∧ 1 < numChunks [[1, 0, 1], [0, 1]] 2 ∧
    (0 : Nat) < ([[1, 0, 1], [0, 1]] : List (List Nat)).length ∧ (0 : Nat) < 2 ∧
    ∃ out, interleave_audio [[1, 0, 1], [0, 1]] ((2 : Nat) : Int) = some out ∧
      out[1 * 2 * ([[1, 0, 1], [0, 1]] : List (List Nat)).length + 0 * 2 + 0]? =
        some ((([[1, 0, 1], [0, 1]] : List (List Nat)).getD 0 []).getD
          (1 * 2 + 0) 0x55) :=
  ⟨by decide, by decide, by decide, by decide,
   C1_interleave_layout [[1, 0, 1], [0, 1]] 2 (by decide) 1 0 0
     (by decide) (by decide) (by decide)⟩

end DMDFPWM
